import Mathlib

/-!
Verification development for the resumable Pagalgana crawl engine
(`crawl_pagalgana_with_selenium_and_save_metadata.py`, the final variant of
the crawler, together with its earlier revision
`crawl_pagalgana_with_selenium.py`).

The development shallowly embeds:
  * the JSON value space used by the checkpoint files,
  * the link normalization-and-filter pipeline of the link-discovery loop,
  * `save_crawl_state` / `load_crawl_state`,
  * `extract_song_metadata` and its helpers, with the outcomes of the
    `requests`-based fetch and of the DOM helpers supplied by an oracle,
  * one step of the frontier-driven main loop of
    `crawl_pagalgana_with_selenium`, with the rendered page supplied by a
    `PageFetcher`-style oracle,
  * the "load more" dynamic-content expansion loop, with button presence and
    the document-height metric supplied by an oracle.
-/

/-- JSON values, as produced and consumed by `json.dump` / `json.load` in the
checkpoint files.  Numbers are restricted to integers, the only numerals the
crawler ever writes (depths). -/
inductive Json where
  | null : Json
  | bool (b : Bool) : Json
  | num (n : Int) : Json
  | str (s : String) : Json
  | arr (items : List Json) : Json
  | obj (fields : List (String × Json)) : Json

/-- A Python dict with string keys and JSON-representable values, in insertion
order (Python dicts preserve insertion order).  Used for a metadata record. -/
abbrev MetaRecord : Type := List (String × Json)

/-- Python's `k in d` on a dict: does some pair carry key `k`? -/
def dictHasKey : MetaRecord → String → Bool
  | [], _ => false
  | p :: rest, k => p.1 == k || dictHasKey rest k

/-- `d[k] = v` on a Python dict: replaces the value in place when the key is
present, appends the pair otherwise. -/
def dictSet (d : MetaRecord) (k : String) (v : Json) : MetaRecord :=
  if dictHasKey d k = true then
    d.map (fun p => if p.1 = k then (k, v) else p)
  else
    d ++ [(k, v)]

/-- `d.update(kvs)` on a Python dict: `dictSet` for each pair in order. -/
def dictUpdate (d : MetaRecord) (kvs : List (String × Json)) : MetaRecord :=
  kvs.foldl (fun a p => dictSet a p.1 p.2) d

/-- `d.get(k)` on a Python dict. -/
def dictGet? (d : MetaRecord) (k : String) : Option Json :=
  (d.find? (fun p => p.1 == k)).map Prod.snd

/-- Does `pat` occur as a contiguous sublist of `s`?  Embeds Python's
`pat in s` test on strings (via their character lists). -/
def containsSub (pat : List Char) : List Char → Bool
  | [] => pat.isEmpty
  | c :: rest => pat.isPrefixOf (c :: rest) || containsSub pat rest

/-- Python's `sub in s` on strings. -/
def strContainsSub (s sub : String) : Bool :=
  containsSub sub.data s.data

/-- Python's `c in s` for a single character. -/
def strContainsChar (s : String) (c : Char) : Bool :=
  s.data.contains c

/-- Python's `s.endswith(suffix)`. -/
def strEndsWith (s suffix : String) : Bool :=
  suffix.data.isSuffixOf s.data

/-- The tuple of suffixes excluded by the link filter
(`absolute_url.endswith(('.mp3', '.zip', ...))`). -/
def excludedExtensions : List String :=
  [".mp3", ".zip", ".rar", ".jpg", ".png", ".gif", ".pdf", ".txt", ".xml",
   ".css", ".js"]

/-- Python's `s.endswith(tuple)`: true when some listed suffix matches. -/
def hasExcludedExt (u : String) : Bool :=
  excludedExtensions.any (fun e => strEndsWith u e)

/-- The acceptance condition of the link filter (source lines 383-385 of the
metadata variant): the resolved URL must contain the substring
`pagalgana.com`, contain neither `#` nor `?`, and not end with one of the
excluded file extensions. -/
def isAllowedUrl (u : String) : Bool :=
  strContainsSub u "pagalgana.com" && !(strContainsChar u '#') &&
    !(strContainsChar u '?') && !(hasExcludedExt u)

/-- Splits `l` at the first occurrence of `pat`, returning the part before it
and the part after it, or `none` if `pat` does not occur. -/
def breakAtSub (pat : List Char) : List Char → Option (List Char × List Char)
  | [] => if pat.isEmpty then some ([], []) else none
  | c :: rest =>
    if pat.isPrefixOf (c :: rest) then some ([], (c :: rest).drop pat.length)
    else
      match breakAtSub pat rest with
      | some (a, b) => some (c :: a, b)
      | none => none

/-- The `scheme://host` part of an absolute URL (characters through the first
`/` after `://`).  Helper for `urljoin`. -/
def originOf (u : String) : String :=
  match breakAtSub "://".data u.data with
  | some (pre, rest) =>
    String.mk (pre ++ "://".data ++ rest.takeWhile (fun c => c ≠ '/'))
  | none => u

/-- Everything up to and including the last `/` of the character list; drops
the final path segment.  Helper for `urljoin`. -/
def dropLastSegment (l : List Char) : List Char :=
  (l.reverse.dropWhile (fun c => c ≠ '/')).reverse

/-- Model of `requests.compat.urljoin` (standard-library code, not part of
this repository) on the href shapes the crawler meets: an href carrying a
scheme (`://`) is already absolute and is returned unchanged; an href starting
with `/` is resolved against the base URL's origin; any other href replaces
the last path segment of the base URL. -/
def urljoin (base href : String) : String :=
  if strContainsSub href "://" then href
  else if "/".data.isPrefixOf href.data then originOf base ++ href
  else String.mk (dropLastSegment base.data ++ href.data)

/-! ## Metadata extraction (`extract_song_metadata` and helpers) -/

/-- Outcome of a Python call that either returns a value or raises an
exception with message `msg`. -/
inductive PyRes (α : Type) where
  | ok (a : α) : PyRes α
  | exn (msg : String) : PyRes α

/-- Oracle for the DOM-helper outcomes on one independently fetched song page:
what `extract_tbody_html`, `tbody_to_json`, `extract_thumbnail` and
`extract_audio_url` return (or raise) for the fetched tree / raw HTML. -/
structure MetaPage where
  tbodyHtml : PyRes (Option String)
  tbodyJson : PyRes (List (String × Json))
  thumbnail : PyRes (Option String)
  audioUrl : PyRes (Option String)

/-- The three outcomes of `fetch_html_tree_requests` (source lines 25-35):
the request fails with a `requests.exceptions.RequestException` (the only
class its handler catches) and `(None, None)` is returned; the request
succeeds but `html.fromstring` raises while building the tree (for example
`lxml.etree.ParserError` on an empty 200 body) — not a `RequestException`,
so it propagates out of the function; or a tree and raw text are
returned. -/
inductive FetchOutcome where
  | failed : FetchOutcome
  | parseError (msg : String) : FetchOutcome
  | page (pg : MetaPage) : FetchOutcome

/-- Oracle for one `extract_song_metadata` call: the outcome of its
`fetch_html_tree_requests` call. -/
structure MetaOracle where
  fetched : FetchOutcome

/-- The `audio_url` step of `extract_song_metadata`: sets `"Play Online"` to
the found URL, or explicitly to `None` when absent/falsy; a raised exception
is caught by the surrounding handler, which records it under
`"error_extracting_metadata"`. -/
def metaAudioStage (pg : MetaPage) (m : MetaRecord) : MetaRecord :=
  match pg.audioUrl with
  | PyRes.exn e => dictSet m "error_extracting_metadata" (Json.str e)
  | PyRes.ok au =>
    match au with
    | some a =>
      if a.isEmpty then dictSet m "Play Online" Json.null
      else dictSet m "Play Online" (Json.str a)
    | none => dictSet m "Play Online" Json.null

/-- The `thumbnail_url` step of `extract_song_metadata`: records
`"Thumbnail"` only when a truthy value was extracted, then continues with the
audio step. -/
def metaThumbStage (pg : MetaPage) (m : MetaRecord) : MetaRecord :=
  match pg.thumbnail with
  | PyRes.exn e => dictSet m "error_extracting_metadata" (Json.str e)
  | PyRes.ok th =>
    metaAudioStage pg
      (match th with
       | some t => if t.isEmpty then m else dictSet m "Thumbnail" (Json.str t)
       | none => m)

/-- The `tbody_html` step of `extract_song_metadata`: merges the parsed
details table into the record when a truthy tbody string was extracted, else
records `"tbody_data_present": false`; then continues with the thumbnail
step.  A raised exception aborts the remaining steps and is recorded under
`"error_extracting_metadata"`. -/
def metaTbodyStage (pg : MetaPage) (m : MetaRecord) : MetaRecord :=
  match pg.tbodyHtml with
  | PyRes.exn e => dictSet m "error_extracting_metadata" (Json.str e)
  | PyRes.ok ot =>
    match ot with
    | some t =>
      if t.isEmpty then
        metaThumbStage pg (dictSet m "tbody_data_present" (Json.bool false))
      else
        match pg.tbodyJson with
        | PyRes.exn e => dictSet m "error_extracting_metadata" (Json.str e)
        | PyRes.ok kvs => metaThumbStage pg (dictUpdate m kvs)
    | none =>
      metaThumbStage pg (dictSet m "tbody_data_present" (Json.bool false))

/-- `extract_song_metadata` (source lines 98-128): the call to
`fetch_html_tree_requests` at line 101 precedes the function's own
`try` (line 107), so an exception raised while building the tree propagates
to the caller (`PyRes.exn`).  A handled fetch failure — `(None, None)` —
returns the two-field error record; otherwise the function starts from
`{"URL": url}` and runs the extraction steps, catching any exception from
them into the record itself. -/
def extract_song_metadata (o : MetaOracle) (url : String) :
    PyRes MetaRecord :=
  match o.fetched with
  | FetchOutcome.parseError e => PyRes.exn e
  | FetchOutcome.failed =>
    PyRes.ok [("URL", Json.str url),
      ("error", Json.str "Failed to fetch page with requests")]
  | FetchOutcome.page pg => PyRes.ok (metaTbodyStage pg [("URL", Json.str url)])

/-! ## Checkpoint persistence (`save_crawl_state` / `load_crawl_state`) -/

/-- What `json.load` on one checkpoint file can observe: the file is absent
(`os.path.exists` false), present but unparseable (`json.JSONDecodeError`),
or parsed into a JSON value. -/
inductive FileContent where
  | absent : FileContent
  | corrupt : FileContent
  | parsed (j : Json) : FileContent

/-- One `(url, depth)` frontier pair as `json.dump` writes it: a two-element
array. -/
def encodeItem (p : String × Nat) : Json :=
  Json.arr [Json.str p.1, Json.num (Int.ofNat p.2)]

/-- A list of strings as `json.dump` writes it. -/
def encodeStrList (l : List String) : Json :=
  Json.arr (l.map Json.str)

/-- A metadata-record list as `json.dump` writes it. -/
def encodeMetaList (l : List MetaRecord) : Json :=
  Json.arr (l.map Json.obj)

/-- The three files written by one checkpoint, in the order
`save_crawl_state` writes them. -/
structure SavedFiles where
  song_pages_file : FileContent
  metadata_file : FileContent
  state_file : FileContent

/-- `save_crawl_state` (source lines 186-211): rewrites the song-page list,
the metadata list, and the `{to_visit, visited_urls}` state object in full. -/
def save_crawl_state (to_visit_deque : List (String × Nat))
    (visited_set song_urls_list : List String)
    (metadata_list : List MetaRecord) : SavedFiles :=
  { song_pages_file := FileContent.parsed (encodeStrList song_urls_list)
    metadata_file := FileContent.parsed (encodeMetaList metadata_list)
    state_file := FileContent.parsed (Json.obj
      [("to_visit", Json.arr (to_visit_deque.map encodeItem)),
       ("visited_urls", encodeStrList visited_set)]) }

/-- Reads a string out of a JSON value, dropping anything else.  (Python
keeps non-string elements untyped; they can never compare equal to a URL
string, so dropping them is observationally the same.) -/
def decodeStr? : Json → Option String
  | Json.str s => some s
  | _ => none

/-- Reads one frontier pair out of a JSON value. -/
def decodeItem? : Json → Option (String × Nat)
  | Json.arr [Json.str u, Json.num n] => if n < 0 then none else some (u, n.toNat)
  | _ => none

/-- Decodes a JSON array of strings; any other shape yields the empty list. -/
def decodeStrList (j : Json) : List String :=
  match j with
  | Json.arr xs => xs.filterMap decodeStr?
  | _ => []

/-- Decodes a JSON array of frontier pairs; any other shape yields the empty
list. -/
def decodeItems (j : Json) : List (String × Nat) :=
  match j with
  | Json.arr xs => xs.filterMap decodeItem?
  | _ => []

/-- Decodes a JSON array of objects into metadata records; any other shape
yields the empty list. -/
def decodeMetaList (j : Json) : List MetaRecord :=
  match j with
  | Json.arr xs =>
    xs.filterMap (fun x => match x with | Json.obj f => some f | _ => none)
  | _ => []

/-- `fields.get(k)` on a parsed JSON object. -/
def jsonLookup? (fields : List (String × Json)) (k : String) : Option Json :=
  (fields.find? (fun p => p.1 == k)).map Prod.snd

/-- The four collections `load_crawl_state` returns, with the field names of
the Python locals. -/
structure LoadedState where
  to_visit_deque : List (String × Nat)
  visited_set : List String
  song_urls_list : List String
  metadata_list : List MetaRecord

/-- `load_crawl_state` (source lines 214-254): each document starts from its
empty default; a present, parseable file replaces the default; an absent or
corrupt file keeps it (the `JSONDecodeError` handler only logs).  The state
object contributes `to_visit` and `visited_urls` through `dict.get` with `[]`
defaults; a parsed state file that is not an object raises inside the `try`
and is caught, keeping the defaults.  Loading `visited_urls` builds a Python
`set`, modelled by `dedup`. -/
def load_crawl_state (state_file song_file meta_file : FileContent) :
    LoadedState :=
  let song_urls_list :=
    match song_file with
    | FileContent.parsed j => decodeStrList j
    | _ => []
  let metadata_list :=
    match meta_file with
    | FileContent.parsed j => decodeMetaList j
    | _ => []
  let state :=
    match state_file with
    | FileContent.parsed (Json.obj fields) =>
      (decodeItems ((jsonLookup? fields "to_visit").getD (Json.arr [])),
       (decodeStrList ((jsonLookup? fields "visited_urls").getD
          (Json.arr []))).dedup)
    | _ => ([], [])
  { to_visit_deque := state.1
    visited_set := state.2
    song_urls_list := song_urls_list
    metadata_list := metadata_list }

/-! ## The crawl engine (`crawl_pagalgana_with_selenium`) -/

/-- The configuration the engine reads inside its loop: the crawl root and
the inclusive depth bound. -/
structure CrawlConfig where
  base_url : String
  max_crawl_depth : Nat

/-- What the browser session exposes for one successfully rendered page:
whether the audio-container XPath matched (song-page classification) and the
`//a/@href` targets of the fully expanded page. -/
structure PageView where
  isSongPage : Bool
  links : List String

/-- The `PageFetcher` collaborator: `render u = none` models an exception
raised while navigating to / processing `u` (caught by the per-item
`except`). -/
structure Fetcher where
  render : String → Option PageView

/-- The in-memory engine state: the frontier deque, the visited set, the
song-page list, the metadata list, and the processed-metadata URL set.
Python sets are modelled as duplicate-free lists with membership via
`contains`. -/
structure CrawlState where
  to_visit : List (String × Nat)
  visited_urls : List String
  song_page_urls : List String
  song_metadata_list : List MetaRecord
  processed_metadata_urls : List String

/-- `s.add(u)` on a Python set modelled as a list: appends only when
absent. -/
def setAdd (s : List String) (u : String) : List String :=
  if s.contains u = true then s else s ++ [u]

/-- Frontier initialization (source lines 274-281): with no previous state,
start from `(base_url, 0)`; on a resume, prepend `(base_url, 0)` unless the
base URL was already visited or is already pending at depth 0. -/
def initFrontier (base_url : String) (to_visit : List (String × Nat))
    (visited_urls : List String) : List (String × Nat) :=
  if to_visit = [] ∧ visited_urls = [] then [(base_url, 0)]
  else if visited_urls.contains base_url = false ∧
      to_visit.contains (base_url, 0) = false then
    (base_url, 0) :: to_visit
  else to_visit

/-- The URLs for which a metadata record is stored: the `"URL"` fields of the
records (source line 284 builds `processed_metadata_urls` this way; records
without a string `"URL"` contribute nothing a URL string could equal). -/
def metaUrls (l : List MetaRecord) : List String :=
  l.filterMap (fun r =>
    match dictGet? r "URL" with
    | some (Json.str u) => some u
    | _ => none)

/-- The link-acceptance step (source lines 380-389): resolve the href against
the current page, filter, then enqueue at `current_depth + 1` unless the URL
is visited, the `(url, current_depth + 1)` pair is already pending, or the
URL is a known song page. -/
def addLink (current_url : String) (current_depth : Nat) (st : CrawlState)
    (link : String) : CrawlState :=
  let absolute_url := urljoin current_url link
  if isAllowedUrl absolute_url = true then
    if st.visited_urls.contains absolute_url = false ∧
        st.to_visit.contains (absolute_url, current_depth + 1) = false then
      if st.song_page_urls.contains absolute_url = false then
        { st with to_visit := st.to_visit ++ [(absolute_url, current_depth + 1)] }
      else st
    else st
  else st

/-- Outcome of the song-page branch: the state afterwards, the URL passed to
`extract_song_metadata` (if it was invoked), and the exception propagating
out of the branch (if the extractor raised). -/
structure SongStepResult where
  state : CrawlState
  extracted : Option String
  raised : Option String

/-- The song-page branch (source lines 320-334): record the URL in the
song-page list (idempotently), then extract metadata only when the URL is
not in `processed_metadata_urls`.  The metadata record is appended and the
URL marked processed only when `extract_song_metadata` returns; if it raises
(uncaught tree-parse error), the exception propagates out of the branch with
the song-page append already performed. -/
def handleSongPage (mo : String → MetaOracle) (current_url : String)
    (st : CrawlState) : SongStepResult :=
  let st1 := { st with song_page_urls :=
    if st.song_page_urls.contains current_url = true then st.song_page_urls
    else st.song_page_urls ++ [current_url] }
  if st1.processed_metadata_urls.contains current_url = false then
    match extract_song_metadata (mo current_url) current_url with
    | PyRes.ok m =>
      ⟨{ st1 with
          song_metadata_list := st1.song_metadata_list ++ [m]
          processed_metadata_urls :=
            st1.processed_metadata_urls ++ [current_url] },
        some current_url, none⟩
    | PyRes.exn e => ⟨st1, some current_url, some e⟩
  else ⟨st1, none, none⟩

/-- The classification step of one iteration: run the song-page branch when
the audio-container marker is present, else leave the state unchanged. -/
def songStep (mo : String → MetaOracle) (pv : PageView)
    (current_url : String) (st : CrawlState) : SongStepResult :=
  if pv.isSongPage = true then handleSongPage mo current_url st
  else ⟨st, none, none⟩

/-- Observable outcome of one loop iteration: the successor state, the URL
passed to `driver.get` (if the item survived the filters), and the URL passed
to `extract_song_metadata` (if metadata extraction ran). -/
structure StepOutcome where
  state : CrawlState
  fetched : Option String
  extracted : Option String

/-- The body of one `while to_visit:` iteration after the pop (source lines
297-390): discard if visited, discard if beyond the depth bound, otherwise
mark visited, fetch, run the song-page branch when the marker is present,
and fold the link-acceptance step over the page's hrefs.  An exception
raised by the metadata extractor is caught by the per-item `except` (line
392), so link extraction is skipped for that item and the loop moves on.
`st` is the state with the popped item already removed. -/
def processItem (cfg : CrawlConfig) (f : Fetcher) (mo : String → MetaOracle)
    (current_url : String) (current_depth : Nat) (st : CrawlState) :
    StepOutcome :=
  if st.visited_urls.contains current_url = true then ⟨st, none, none⟩
  else if cfg.max_crawl_depth < current_depth then ⟨st, none, none⟩
  else
    let st1 := { st with visited_urls := setAdd st.visited_urls current_url }
    match f.render current_url with
    | none => ⟨st1, some current_url, none⟩
    | some pv =>
      let sr := songStep mo pv current_url st1
      match sr.raised with
      | some _ => ⟨sr.state, some current_url, sr.extracted⟩
      | none =>
        ⟨pv.links.foldl (addLink current_url current_depth) sr.state,
          some current_url, sr.extracted⟩

/-- One iteration of the main loop: pop the front frontier item and process
it; `none` when the frontier is empty (loop exit). -/
def engineStep (cfg : CrawlConfig) (f : Fetcher) (mo : String → MetaOracle)
    (st : CrawlState) : Option StepOutcome :=
  match st.to_visit with
  | [] => none
  | (u, d) :: rest => some (processItem cfg f mo u d { st with to_visit := rest })

/-- Runs up to `n` loop iterations, returning the final state and the URLs
passed to `driver.get`, in order. -/
def runSteps (cfg : CrawlConfig) (f : Fetcher) (mo : String → MetaOracle) :
    Nat → CrawlState → CrawlState × List String
  | 0, st => (st, [])
  | n + 1, st =>
    match engineStep cfg f mo st with
    | none => (st, [])
    | some out =>
      let r := runSteps cfg f mo n out.state
      (r.1, out.fetched.toList ++ r.2)

/-! ## Dynamic-content expansion (the "load more" loop) -/

/-- The inner stabilization poll (source lines 351-356): starting from
`new_height = last_height`, repeat `sleep; new_height := scrollHeight;
scroll_attempts += 1` while the height still equals `last_height` and fewer
than 7 attempts were made.  `height t` is the scrollHeight read by the
`t`-th `execute_script` call of the whole expansion; `left` is
`7 - scroll_attempts`.  Returns the final `new_height` and the index after
the last read. -/
def scrollWait (height : Nat → Nat) (lastHeight : Nat) :
    Nat → Nat → Nat → Nat × Nat
  | newHeight, t, 0 => (newHeight, t)
  | newHeight, t, left + 1 =>
    if newHeight = lastHeight then scrollWait height lastHeight (height t) (t + 1) left
    else (newHeight, t)

/-- The outer "load more" loop (source lines 339-370), driven by an oracle:
`button k` is whether the `WebDriverWait` of iteration `k` finds a clickable
control (a timeout breaks the loop), `height t` is the `t`-th scrollHeight
read.  Each iteration reads `last_height`, clicks, runs the stabilization
poll, and breaks when the height did not change.  `fuel` bounds the
iterations so the model is total; the counted result `(clicks, polls)` is
what the claims constrain.  Returns `none` when the fuel runs out before the
loop breaks. -/
def loadMoreLoop (button : Nat → Bool) (height : Nat → Nat) :
    Nat → Nat → Nat → Option (Nat × Nat)
  | 0, _, _ => none
  | fuel + 1, k, t =>
    if button k = true then
      let lastHeight := height t
      let r := scrollWait height lastHeight lastHeight (t + 1) 7
      let polls := r.2 - (t + 1)
      if r.1 = lastHeight then some (1, polls)
      else
        match loadMoreLoop button height fuel (k + 1) r.2 with
        | some rr => some (1 + rr.1, polls + rr.2)
        | none => none
    else some (0, 0)

/-! ## Concrete fixtures used by counterexamples and witnesses -/

/-- Configuration of the concrete two-step run below. -/
def cexCfg : CrawlConfig := ⟨"https://pagalgana.com/", 3⟩

/-- A concrete site: page `b.html` links to `c.html` and `y.html`; page
`c.html` links to `y.html`; everything else fails to render. -/
def cexFetcher : Fetcher := ⟨fun u =>
  if u = "https://pagalgana.com/b.html" then
    some ⟨false, ["c.html", "y.html"]⟩
  else if u = "https://pagalgana.com/c.html" then
    some ⟨false, ["y.html"]⟩
  else none⟩

/-- A metadata oracle whose independent fetch always fails with a handled
`RequestException`. -/
def cexMo : String → MetaOracle := fun _ => ⟨FetchOutcome.failed⟩

/-- A fresh engine state whose frontier holds only page `b.html` at depth
0. -/
def cexState0 : CrawlState :=
  ⟨[("https://pagalgana.com/b.html", 0)], [], [], [], []⟩

/-! ## Dictionary lemmas -/

theorem dictHasKey_append (d e : MetaRecord) (k : String) :
    dictHasKey (d ++ e) k = (dictHasKey d k || dictHasKey e k) := by
  induction d with
  | nil => simp [dictHasKey]
  | cons p rest ih => simp [dictHasKey, ih, Bool.or_assoc]

theorem dictHasKey_map_set (d : MetaRecord) (k k' : String) (v : Json) :
    dictHasKey (d.map (fun p => if p.1 = k' then (k', v) else p)) k
      = dictHasKey d k := by
  induction d with
  | nil => rfl
  | cons p rest ih =>
    by_cases hp : p.1 = k'
    · simp [dictHasKey, hp, ih]
    · simp [dictHasKey, hp, ih]

theorem dictHasKey_dictSet (d : MetaRecord) (k k' : String) (v : Json) :
    dictHasKey (dictSet d k' v) k = (dictHasKey d k || (k' == k)) := by
  unfold dictSet
  by_cases h : dictHasKey d k' = true
  · rw [if_pos h, dictHasKey_map_set]
    cases hkk : (k' == k) with
    | false => simp
    | true =>
      have : k' = k := by simpa using hkk
      subst this
      simp [h]
  · rw [if_neg h, dictHasKey_append]
    simp [dictHasKey]

theorem dictHasKey_set_of {d : MetaRecord} {k : String} (k' : String)
    (v : Json) (h : dictHasKey d k = true) :
    dictHasKey (dictSet d k' v) k = true := by
  rw [dictHasKey_dictSet, h]
  rfl

theorem dictHasKey_update_of {d : MetaRecord} {k : String}
    (kvs : List (String × Json)) (h : dictHasKey d k = true) :
    dictHasKey (dictUpdate d kvs) k = true := by
  induction kvs generalizing d with
  | nil => exact h
  | cons p rest ih =>
    show dictHasKey (dictUpdate (dictSet d p.1 p.2) rest) k = true
    exact ih (dictHasKey_set_of p.1 p.2 h)

theorem metaAudioStage_hasKey (pg : MetaPage) {m : MetaRecord} {k : String}
    (h : dictHasKey m k = true) :
    dictHasKey (metaAudioStage pg m) k = true := by
  unfold metaAudioStage
  split
  · exact dictHasKey_set_of _ _ h
  · split
    · split
      · exact dictHasKey_set_of _ _ h
      · exact dictHasKey_set_of _ _ h
    · exact dictHasKey_set_of _ _ h

theorem metaThumbStage_hasKey (pg : MetaPage) {m : MetaRecord} {k : String}
    (h : dictHasKey m k = true) :
    dictHasKey (metaThumbStage pg m) k = true := by
  unfold metaThumbStage
  split
  · exact dictHasKey_set_of _ _ h
  · apply metaAudioStage_hasKey
    split
    · split
      · exact h
      · exact dictHasKey_set_of _ _ h
    · exact h

theorem metaTbodyStage_hasKey (pg : MetaPage) {m : MetaRecord} {k : String}
    (h : dictHasKey m k = true) :
    dictHasKey (metaTbodyStage pg m) k = true := by
  unfold metaTbodyStage
  split
  · exact dictHasKey_set_of _ _ h
  · split
    · split
      · exact metaThumbStage_hasKey pg (dictHasKey_set_of _ _ h)
      · split
        · exact dictHasKey_set_of _ _ h
        · exact metaThumbStage_hasKey pg (dictHasKey_update_of _ h)
    · exact metaThumbStage_hasKey pg (dictHasKey_set_of _ _ h)

theorem extract_ok_hasKey_url (o : MetaOracle) (url : String) :
    ∀ m, extract_song_metadata o url = PyRes.ok m →
      dictHasKey m "URL" = true := by
  intro m hm
  unfold extract_song_metadata at hm
  cases ho : o.fetched with
  | parseError e => rw [ho] at hm; cases hm
  | failed =>
    rw [ho] at hm
    cases hm
    simp [dictHasKey]
  | page pg =>
    rw [ho] at hm
    cases hm
    exact metaTbodyStage_hasKey pg (by simp [dictHasKey])

/-- C9 counterexample: a tree-parse error raised on a fetched page (for
example `lxml.etree.ParserError` on an empty 200 body) is not a
`requests.exceptions.RequestException`, so it escapes the fetch handler and
propagates out of `extract_song_metadata` to its caller — the function does
raise for this fetch outcome. -/
theorem c9_raise_counterexample :
    extract_song_metadata ⟨FetchOutcome.parseError "Document is empty"⟩
        "https://pagalgana.com/s.html" =
      PyRes.exn "Document is empty" := rfl

/-- C9 (amended): a fetch failure handled as a `RequestException` yields a
record with exactly the keys `URL` and `error`; every successfully parsed
page yields a record carrying `URL`, with extraction errors caught into the
record; but an exception raised while building the HTML tree — not a
`RequestException` — propagates out of `extract_song_metadata` to its
caller. -/
theorem c9_metadata_error_contract (o : MetaOracle) (url : String) :
    (o.fetched = FetchOutcome.failed →
      extract_song_metadata o url =
        PyRes.ok [("URL", Json.str url),
          ("error", Json.str "Failed to fetch page with requests")]) ∧
    (∀ pg, o.fetched = FetchOutcome.page pg →
      ∃ m, extract_song_metadata o url = PyRes.ok m ∧
        dictHasKey m "URL" = true) ∧
    (∀ e, o.fetched = FetchOutcome.parseError e →
      extract_song_metadata o url = PyRes.exn e) := by
  refine ⟨?_, ?_, ?_⟩
  · intro h
    unfold extract_song_metadata
    rw [h]
  · intro pg h
    refine ⟨metaTbodyStage pg [("URL", Json.str url)], ?_,
      metaTbodyStage_hasKey pg (by simp [dictHasKey])⟩
    unfold extract_song_metadata
    rw [h]
  · intro e h
    unfold extract_song_metadata
    rw [h]

/-- Witness for the amended C9 at a concrete handled fetch failure. -/
theorem c9_metadata_error_contract_witness :
    (MetaOracle.mk FetchOutcome.failed).fetched = FetchOutcome.failed ∧
    extract_song_metadata ⟨FetchOutcome.failed⟩
        "https://pagalgana.com/s.html" =
      PyRes.ok [("URL", Json.str "https://pagalgana.com/s.html"),
        ("error", Json.str "Failed to fetch page with requests")] :=
  ⟨rfl,
   (c9_metadata_error_contract ⟨FetchOutcome.failed⟩
       "https://pagalgana.com/s.html").1 rfl⟩

/-! ## Link filter (C5), expansion loop (C8), initialization (C10),
load resilience (C6) -/

/-- C5: against base `https://pagalgana.com/x.html` the pipeline resolves and
accepts `y.html` only, rejecting `y.html#top`, `song.mp3` and
`https://other.com/z.html`; and any resolved URL lacking the domain
substring, containing `#` or `?`, or carrying an excluded extension is
rejected. -/
theorem c5_filter_correctness :
    urljoin "https://pagalgana.com/x.html" "y.html" =
      "https://pagalgana.com/y.html" ∧
    isAllowedUrl (urljoin "https://pagalgana.com/x.html" "y.html") = true ∧
    urljoin "https://pagalgana.com/x.html" "y.html#top" =
      "https://pagalgana.com/y.html#top" ∧
    isAllowedUrl (urljoin "https://pagalgana.com/x.html" "y.html#top")
      = false ∧
    urljoin "https://pagalgana.com/x.html" "song.mp3" =
      "https://pagalgana.com/song.mp3" ∧
    isAllowedUrl (urljoin "https://pagalgana.com/x.html" "song.mp3")
      = false ∧
    urljoin "https://pagalgana.com/x.html" "https://other.com/z.html" =
      "https://other.com/z.html" ∧
    isAllowedUrl
      (urljoin "https://pagalgana.com/x.html" "https://other.com/z.html")
      = false ∧
    ∀ url : String,
      (strContainsSub url "pagalgana.com" = false ∨
       strContainsChar url '#' = true ∨
       strContainsChar url '?' = true ∨
       hasExcludedExt url = true) →
      isAllowedUrl url = false := by
  refine ⟨by decide, by decide, by decide, by decide, by decide, by decide,
    by decide, by decide, ?_⟩
  intro url h
  unfold isAllowedUrl
  rcases h with h | h | h | h <;> simp [h]

/-- Witness for C5's general rejection clause at a concrete fragment URL. -/
theorem c5_filter_correctness_witness :
    strContainsChar "https://pagalgana.com/a#b" '#' = true ∧
    isAllowedUrl "https://pagalgana.com/a#b" = false :=
  ⟨by decide,
   c5_filter_correctness.2.2.2.2.2.2.2.2 "https://pagalgana.com/a#b"
     (Or.inr (Or.inl (by decide)))⟩

theorem scrollWait_const (height : Nat → Nat) (c : Nat)
    (hh : ∀ t, height t = c) :
    ∀ left t, scrollWait height c c t left = (c, t + left) := by
  intro left
  induction left with
  | zero => intro t; rfl
  | succ n ih =>
    intro t
    show scrollWait height c c t (n + 1) = _
    unfold scrollWait
    rw [if_pos rfl, hh t, ih (t + 1)]
    congr 1
    omega

/-- C8: when activating the load-more control never changes the
content-height metric, the expansion loop performs one click and exactly the
configured maximum of 7 height polls, then stops — the result is the same
for every fuel bound of at least one iteration, so the loop terminates
rather than clicking or polling indefinitely. -/
theorem c8_expansion_terminates (button : Nat → Bool) (height : Nat → Nat)
    (c : Nat) (hh : ∀ t, height t = c) (k t fuel : Nat) (hfuel : 1 ≤ fuel)
    (hb : button k = true) :
    loadMoreLoop button height fuel k t = some (1, 7) := by
  obtain ⟨m, rfl⟩ : ∃ m, fuel = m + 1 := ⟨fuel - 1, by omega⟩
  show loadMoreLoop button height (m + 1) k t = some (1, 7)
  unfold loadMoreLoop
  rw [if_pos hb, hh t]
  simp only [scrollWait_const height c hh, if_pos rfl]
  have h78 : t + 1 + 7 - (t + 1) = 7 := by omega
  rw [h78]
  simp

/-- Witness for C8 with a constant-height page and fuel 1. -/
theorem c8_expansion_terminates_witness :
    (fun _ : Nat => true) 0 = true ∧
    loadMoreLoop (fun _ => true) (fun _ => 100) 1 0 0 = some (1, 7) :=
  ⟨rfl,
   c8_expansion_terminates (fun _ => true) (fun _ => 100) 100 (fun _ => rfl)
     0 0 1 (by decide) rfl⟩

/-- C10: with both loaded collections empty the frontier starts as
`[(base_url, 0)]`; on a resume where the base URL is neither visited nor
pending at depth 0, `(base_url, 0)` is prepended ahead of every resumed
item. -/
theorem c10_root_reenqueue (base : String) (tv : List (String × Nat))
    (vis : List String) :
    (tv = [] → vis = [] → initFrontier base tv vis = [(base, 0)]) ∧
    (¬ (tv = [] ∧ vis = []) →
      vis.contains base = false → tv.contains (base, 0) = false →
      initFrontier base tv vis = (base, 0) :: tv) := by
  constructor
  · intro h1 h2
    subst h1
    subst h2
    rfl
  · intro hne hv ht
    unfold initFrontier
    rw [if_neg hne, if_pos ⟨hv, ht⟩]

/-- Witness for C10 on a concrete resumed frontier. -/
theorem c10_root_reenqueue_witness :
    ¬ (([("https://pagalgana.com/a.html", 1)] : List (String × Nat)) = [] ∧
       ([] : List String) = []) ∧
    initFrontier "https://pagalgana.com/"
        [("https://pagalgana.com/a.html", 1)] [] =
      ("https://pagalgana.com/", 0) :: [("https://pagalgana.com/a.html", 1)] :=
  ⟨by simp,
   (c10_root_reenqueue "https://pagalgana.com/"
       [("https://pagalgana.com/a.html", 1)] []).2
     (by simp) (by decide) (by decide)⟩

/-- C6: an absent or unparseable checkpoint file yields the empty default for
that document only — empty frontier and visited set for the state file, an
empty list for the song-page or metadata file — and `load_crawl_state`
returns rather than raising. -/
theorem c6_corrupt_or_absent_defaults (sf gf mf : FileContent) :
    ((sf = FileContent.absent ∨ sf = FileContent.corrupt) →
      (load_crawl_state sf gf mf).to_visit_deque = [] ∧
      (load_crawl_state sf gf mf).visited_set = []) ∧
    ((gf = FileContent.absent ∨ gf = FileContent.corrupt) →
      (load_crawl_state sf gf mf).song_urls_list = []) ∧
    ((mf = FileContent.absent ∨ mf = FileContent.corrupt) →
      (load_crawl_state sf gf mf).metadata_list = []) := by
  refine ⟨?_, ?_, ?_⟩
  · rintro (rfl | rfl) <;> exact ⟨rfl, rfl⟩
  · rintro (rfl | rfl) <;> rfl
  · rintro (rfl | rfl) <;> rfl

/-- Witness for C6: a corrupt state file next to a parsed song file and an
absent metadata file. -/
theorem c6_corrupt_or_absent_defaults_witness :
    (FileContent.corrupt = FileContent.absent ∨
     FileContent.corrupt = FileContent.corrupt) ∧
    (load_crawl_state FileContent.corrupt
        (FileContent.parsed (encodeStrList ["https://pagalgana.com/s.html"]))
        FileContent.absent).to_visit_deque = [] ∧
    (load_crawl_state FileContent.corrupt
        (FileContent.parsed (encodeStrList ["https://pagalgana.com/s.html"]))
        FileContent.absent).visited_set = [] :=
  ⟨Or.inr rfl,
   (c6_corrupt_or_absent_defaults FileContent.corrupt
       (FileContent.parsed (encodeStrList ["https://pagalgana.com/s.html"]))
       FileContent.absent).1 (Or.inr rfl)⟩

/-! ## Checkpoint round trip (C2) -/

theorem decodeStrList_encode (l : List String) :
    decodeStrList (encodeStrList l) = l := by
  show (l.map Json.str).filterMap decodeStr? = l
  induction l with
  | nil => rfl
  | cons a t ih => simp [decodeStr?, ih]

theorem decodeItem?_encode (p : String × Nat) :
    decodeItem? (encodeItem p) = some p := by
  show (if Int.ofNat p.2 < 0 then none else some (p.1, (Int.ofNat p.2).toNat))
    = some p
  rw [if_neg (by simp only [Int.ofNat_eq_coe]; omega)]
  simp [Int.ofNat_eq_coe]

theorem decodeItems_encode (l : List (String × Nat)) :
    decodeItems (Json.arr (l.map encodeItem)) = l := by
  show (l.map encodeItem).filterMap decodeItem? = l
  induction l with
  | nil => rfl
  | cons a t ih => simp [decodeItem?_encode, ih]

theorem decodeMetaList_encode (l : List MetaRecord) :
    decodeMetaList (encodeMetaList l) = l := by
  show (l.map Json.obj).filterMap _ = l
  induction l with
  | nil => rfl
  | cons a t ih => simp [ih]

theorem load_save (tv : List (String × Nat)) (vis songs : List String)
    (meta : List MetaRecord) :
    load_crawl_state (save_crawl_state tv vis songs meta).state_file
        (save_crawl_state tv vis songs meta).song_pages_file
        (save_crawl_state tv vis songs meta).metadata_file =
      ⟨tv, vis.dedup, songs, meta⟩ := by
  have h : load_crawl_state (save_crawl_state tv vis songs meta).state_file
      (save_crawl_state tv vis songs meta).song_pages_file
      (save_crawl_state tv vis songs meta).metadata_file =
      ⟨decodeItems (Json.arr (tv.map encodeItem)),
       (decodeStrList (encodeStrList vis)).dedup,
       decodeStrList (encodeStrList songs),
       decodeMetaList (encodeMetaList meta)⟩ := rfl
  rw [h, decodeItems_encode, decodeStrList_encode, decodeStrList_encode,
    decodeMetaList_encode]

/-- C2: saving a state with non-empty frontier, visited set, song index and
metadata list and loading it back reproduces an equivalent state: the same
frontier in the same FIFO order, the same visited-set members, and the same
song-index and metadata sequences. -/
theorem c2_checkpoint_round_trip (tv : List (String × Nat))
    (vis songs : List String) (meta : List MetaRecord)
    (h1 : tv ≠ []) (h2 : vis ≠ []) (h3 : songs ≠ []) (h4 : meta ≠ []) :
    (load_crawl_state (save_crawl_state tv vis songs meta).state_file
        (save_crawl_state tv vis songs meta).song_pages_file
        (save_crawl_state tv vis songs meta).metadata_file).to_visit_deque
      = tv ∧
    (∀ u, u ∈ (load_crawl_state (save_crawl_state tv vis songs meta).state_file
        (save_crawl_state tv vis songs meta).song_pages_file
        (save_crawl_state tv vis songs meta).metadata_file).visited_set ↔
      u ∈ vis) ∧
    (load_crawl_state (save_crawl_state tv vis songs meta).state_file
        (save_crawl_state tv vis songs meta).song_pages_file
        (save_crawl_state tv vis songs meta).metadata_file).song_urls_list
      = songs ∧
    (load_crawl_state (save_crawl_state tv vis songs meta).state_file
        (save_crawl_state tv vis songs meta).song_pages_file
        (save_crawl_state tv vis songs meta).metadata_file).metadata_list
      = meta := by
  rw [load_save]
  refine ⟨rfl, ?_, rfl, rfl⟩
  intro u
  exact List.mem_dedup

/-- Witness for C2 at a concrete non-empty state. -/
theorem c2_checkpoint_round_trip_witness :
    (([("https://pagalgana.com/a.html", 1)] : List (String × Nat)) ≠ []) ∧
    (load_crawl_state
        (save_crawl_state [("https://pagalgana.com/a.html", 1)]
          ["https://pagalgana.com/"] ["https://pagalgana.com/s.html"]
          [[("URL", Json.str "https://pagalgana.com/s.html")]]).state_file
        (save_crawl_state [("https://pagalgana.com/a.html", 1)]
          ["https://pagalgana.com/"] ["https://pagalgana.com/s.html"]
          [[("URL", Json.str "https://pagalgana.com/s.html")]]).song_pages_file
        (save_crawl_state [("https://pagalgana.com/a.html", 1)]
          ["https://pagalgana.com/"] ["https://pagalgana.com/s.html"]
          [[("URL", Json.str "https://pagalgana.com/s.html")]]).metadata_file
      ).to_visit_deque = [("https://pagalgana.com/a.html", 1)] :=
  ⟨by simp,
   (c2_checkpoint_round_trip [("https://pagalgana.com/a.html", 1)]
       ["https://pagalgana.com/"] ["https://pagalgana.com/s.html"]
       [[("URL", Json.str "https://pagalgana.com/s.html")]]
       (by simp) (by simp) (by simp) (by simp)).1⟩

/-! ## Frontier deduplication (C1) -/

theorem contains_true_iff {α : Type} [BEq α] [LawfulBEq α] {l : List α}
    {a : α} : l.contains a = true ↔ a ∈ l :=
  List.elem_iff

/-- C1 counterexample: starting fresh from page `b.html` (depth 0), which
links to `c.html` and `y.html`, and then processing `c.html` (depth 1),
which links to `y.html` again, leaves the frontier holding two WorkItems
with the URL `y.html` — at depths 1 and 2 — because the engine's membership
check is on the exact `(url, depth + 1)` pair, not on the URL alone. -/
theorem c1_duplicate_url_counterexample :
    (runSteps cexCfg cexFetcher cexMo 2 cexState0).1.to_visit =
      [("https://pagalgana.com/y.html", 1),
       ("https://pagalgana.com/y.html", 2)] ∧
    ¬ ((runSteps cexCfg cexFetcher cexMo 2 cexState0).1.to_visit.map
        Prod.fst).Nodup := by
  constructor
  · decide
  · decide

/-- C1 (amended): the link-acceptance step adds no WorkItem when the resolved
URL is already in the visited set, already in the song-page index, or already
pending in the frontier *at exactly depth `d + 1`* (the depth it would be
enqueued with); WorkItems sharing a URL at different depths can still
coexist. -/
theorem c1_enqueue_dedup (st : CrawlState) (current_url : String) (d : Nat)
    (link : String)
    (h : st.visited_urls.contains (urljoin current_url link) = true ∨
         st.song_page_urls.contains (urljoin current_url link) = true ∨
         st.to_visit.contains (urljoin current_url link, d + 1) = true) :
    addLink current_url d st link = st := by
  unfold addLink
  rcases h with h | h | h <;> rw [contains_true_iff] at h <;> simp [h]

/-- Witness for the amended C1 at a frontier already holding the resolved
pair. -/
theorem c1_enqueue_dedup_witness :
    (CrawlState.mk [("https://pagalgana.com/y.html", 1)] [] [] []
        []).to_visit.contains
      (urljoin "https://pagalgana.com/x.html" "y.html", 0 + 1) = true ∧
    addLink "https://pagalgana.com/x.html" 0
        (CrawlState.mk [("https://pagalgana.com/y.html", 1)] [] [] [] [])
        "y.html" =
      CrawlState.mk [("https://pagalgana.com/y.html", 1)] [] [] [] [] :=
  ⟨by decide,
   c1_enqueue_dedup (CrawlState.mk [("https://pagalgana.com/y.html", 1)]
       [] [] [] []) "https://pagalgana.com/x.html" 0 "y.html"
     (Or.inr (Or.inr (by decide)))⟩

/-! ## Engine step lemmas -/

theorem setAdd_contains_of {s : List String} {v : String} (u : String)
    (h : s.contains v = true) : (setAdd s u).contains v = true := by
  unfold setAdd
  split
  · exact h
  · rw [contains_true_iff] at h ⊢
    exact List.mem_append_left _ h

theorem setAdd_contains_self (s : List String) (u : String) :
    (setAdd s u).contains u = true := by
  unfold setAdd
  split
  · next h => exact h
  · rw [contains_true_iff]
    exact List.mem_append_right _ (List.mem_singleton_self u)

theorem addLink_fields (cu : String) (d : Nat) (st : CrawlState)
    (l : String) :
    (addLink cu d st l).visited_urls = st.visited_urls ∧
    (addLink cu d st l).song_page_urls = st.song_page_urls ∧
    (addLink cu d st l).song_metadata_list = st.song_metadata_list ∧
    (addLink cu d st l).processed_metadata_urls
      = st.processed_metadata_urls := by
  simp only [addLink]
  split
  · split
    · split
      · exact ⟨rfl, rfl, rfl, rfl⟩
      · exact ⟨rfl, rfl, rfl, rfl⟩
    · exact ⟨rfl, rfl, rfl, rfl⟩
  · exact ⟨rfl, rfl, rfl, rfl⟩

theorem addLink_to_visit_mem (cu : String) (d : Nat) (st : CrawlState)
    (l : String) :
    ∀ e ∈ (addLink cu d st l).to_visit, e ∈ st.to_visit ∨ e.2 = d + 1 := by
  intro e he
  simp only [addLink] at he
  split at he
  · split at he
    · split at he
      · simp only [List.mem_append] at he
        rcases he with he | he
        · exact Or.inl he
        · right
          simp only [List.mem_singleton] at he
          rw [he]
      · exact Or.inl he
    · exact Or.inl he
  · exact Or.inl he

theorem foldl_addLink_fields (cu : String) (d : Nat) (ls : List String)
    (st : CrawlState) :
    (ls.foldl (addLink cu d) st).visited_urls = st.visited_urls ∧
    (ls.foldl (addLink cu d) st).song_page_urls = st.song_page_urls ∧
    (ls.foldl (addLink cu d) st).song_metadata_list
      = st.song_metadata_list ∧
    (ls.foldl (addLink cu d) st).processed_metadata_urls
      = st.processed_metadata_urls := by
  induction ls generalizing st with
  | nil => exact ⟨rfl, rfl, rfl, rfl⟩
  | cons a t ih =>
    have h := addLink_fields cu d st a
    have h2 := ih (addLink cu d st a)
    exact ⟨h2.1.trans h.1, h2.2.1.trans h.2.1, h2.2.2.1.trans h.2.2.1,
      h2.2.2.2.trans h.2.2.2⟩

theorem foldl_addLink_to_visit_mem (cu : String) (d : Nat) (ls : List String)
    (st : CrawlState) :
    ∀ e ∈ (ls.foldl (addLink cu d) st).to_visit,
      e ∈ st.to_visit ∨ e.2 = d + 1 := by
  induction ls generalizing st with
  | nil => intro e he; exact Or.inl he
  | cons a t ih =>
    intro e he
    rcases ih (addLink cu d st a) e he with h | h
    · exact addLink_to_visit_mem cu d st a e h
    · exact Or.inr h

theorem handleSongPage_fixed (mo : String → MetaOracle) (u : String)
    (st : CrawlState) :
    (handleSongPage mo u st).state.to_visit = st.to_visit ∧
    (handleSongPage mo u st).state.visited_urls = st.visited_urls := by
  simp only [handleSongPage]
  split <;> first
    | exact ⟨rfl, rfl⟩
    | (split <;> exact ⟨rfl, rfl⟩)

theorem songStep_fixed (mo : String → MetaOracle) (pv : PageView)
    (u : String) (st : CrawlState) :
    (songStep mo pv u st).state.to_visit = st.to_visit ∧
    (songStep mo pv u st).state.visited_urls = st.visited_urls := by
  unfold songStep
  split
  · exact handleSongPage_fixed mo u st
  · exact ⟨rfl, rfl⟩

theorem handleSongPage_spec (mo : String → MetaOracle) (u : String)
    (st : CrawlState) :
    (st.processed_metadata_urls.contains u = true ∧
      (handleSongPage mo u st).state.song_metadata_list
        = st.song_metadata_list ∧
      (handleSongPage mo u st).state.processed_metadata_urls
        = st.processed_metadata_urls ∧
      (handleSongPage mo u st).extracted = none ∧
      (handleSongPage mo u st).raised = none) ∨
    (∃ m, st.processed_metadata_urls.contains u = false ∧
      extract_song_metadata (mo u) u = PyRes.ok m ∧
      (handleSongPage mo u st).state.song_metadata_list
        = st.song_metadata_list ++ [m] ∧
      (handleSongPage mo u st).state.processed_metadata_urls
        = st.processed_metadata_urls ++ [u] ∧
      (handleSongPage mo u st).extracted = some u ∧
      (handleSongPage mo u st).raised = none) ∨
    (∃ e, st.processed_metadata_urls.contains u = false ∧
      extract_song_metadata (mo u) u = PyRes.exn e ∧
      (handleSongPage mo u st).state.song_metadata_list
        = st.song_metadata_list ∧
      (handleSongPage mo u st).state.processed_metadata_urls
        = st.processed_metadata_urls ∧
      (handleSongPage mo u st).extracted = some u ∧
      (handleSongPage mo u st).raised = some e) := by
  by_cases h : st.processed_metadata_urls.contains u = false
  · cases hex : extract_song_metadata (mo u) u with
    | ok m =>
      refine Or.inr (Or.inl ⟨m, h, rfl, ?_, ?_, ?_, ?_⟩) <;>
        (unfold handleSongPage; dsimp only; rw [if_pos h, hex])
    | exn e =>
      refine Or.inr (Or.inr ⟨e, h, rfl, ?_, ?_, ?_, ?_⟩) <;>
        (unfold handleSongPage; dsimp only; rw [if_pos h, hex])
  · left
    have ht : st.processed_metadata_urls.contains u = true := by
      cases hc : st.processed_metadata_urls.contains u
      · exact absurd hc h
      · rfl
    refine ⟨ht, ?_, ?_, ?_, ?_⟩ <;>
      (unfold handleSongPage; dsimp only; rw [if_neg h])

theorem songStep_spec (mo : String → MetaOracle) (pv : PageView)
    (u : String) (st : CrawlState) :
    ((songStep mo pv u st).state.song_metadata_list
        = st.song_metadata_list ∧
      (songStep mo pv u st).state.processed_metadata_urls
        = st.processed_metadata_urls ∧
      (songStep mo pv u st).extracted = none) ∨
    (∃ m, st.processed_metadata_urls.contains u = false ∧
      extract_song_metadata (mo u) u = PyRes.ok m ∧
      (songStep mo pv u st).state.song_metadata_list
        = st.song_metadata_list ++ [m] ∧
      (songStep mo pv u st).state.processed_metadata_urls
        = st.processed_metadata_urls ++ [u] ∧
      (songStep mo pv u st).extracted = some u) ∨
    (st.processed_metadata_urls.contains u = false ∧
      (songStep mo pv u st).state.song_metadata_list
        = st.song_metadata_list ∧
      (songStep mo pv u st).state.processed_metadata_urls
        = st.processed_metadata_urls ∧
      (songStep mo pv u st).extracted = some u) := by
  unfold songStep
  split
  · rcases handleSongPage_spec mo u st with
      ⟨h1, h2, h3, h4, h5⟩ | ⟨m, h1, h2, h3, h4, h5, h6⟩ |
      ⟨e, h1, h2, h3, h4, h5, h6⟩
    · exact Or.inl ⟨h2, h3, h4⟩
    · exact Or.inr (Or.inl ⟨m, h1, h2, h3, h4, h5⟩)
    · exact Or.inr (Or.inr ⟨h1, h3, h4, h5⟩)
  · exact Or.inl ⟨rfl, rfl, rfl⟩

theorem processItem_spec (cfg : CrawlConfig) (f : Fetcher)
    (mo : String → MetaOracle) (u : String) (d : Nat) (st : CrawlState) :
    (st.visited_urls.contains u = true ∧
      processItem cfg f mo u d st = ⟨st, none, none⟩) ∨
    (st.visited_urls.contains u = false ∧ cfg.max_crawl_depth < d ∧
      processItem cfg f mo u d st = ⟨st, none, none⟩) ∨
    (st.visited_urls.contains u = false ∧ d ≤ cfg.max_crawl_depth ∧
      f.render u = none ∧
      processItem cfg f mo u d st =
        ⟨{ st with visited_urls := setAdd st.visited_urls u },
          some u, none⟩) ∨
    (∃ pv, st.visited_urls.contains u = false ∧ d ≤ cfg.max_crawl_depth ∧
      f.render u = some pv ∧
      (songStep mo pv u
        { st with visited_urls := setAdd st.visited_urls u }).raised
        = none ∧
      processItem cfg f mo u d st =
        ⟨pv.links.foldl (addLink u d)
            (songStep mo pv u
              { st with visited_urls := setAdd st.visited_urls u }).state,
          some u,
          (songStep mo pv u
            { st with visited_urls := setAdd st.visited_urls u }).extracted⟩) ∨
    (∃ pv e, st.visited_urls.contains u = false ∧ d ≤ cfg.max_crawl_depth ∧
      f.render u = some pv ∧
      (songStep mo pv u
        { st with visited_urls := setAdd st.visited_urls u }).raised
        = some e ∧
      processItem cfg f mo u d st =
        ⟨(songStep mo pv u
            { st with visited_urls := setAdd st.visited_urls u }).state,
          some u,
          (songStep mo pv u
            { st with visited_urls := setAdd st.visited_urls u }).extracted⟩) := by
  by_cases h1 : st.visited_urls.contains u = true
  · exact Or.inl ⟨h1, by unfold processItem; rw [if_pos h1]⟩
  · have h1f : st.visited_urls.contains u = false := by
      cases hc : st.visited_urls.contains u
      · rfl
      · exact absurd hc h1
    by_cases h2 : cfg.max_crawl_depth < d
    · refine Or.inr (Or.inl ⟨h1f, h2, ?_⟩)
      unfold processItem
      rw [if_neg h1, if_pos h2]
    · have h2' : d ≤ cfg.max_crawl_depth := Nat.not_lt.mp h2
      cases hr : f.render u with
      | none =>
        refine Or.inr (Or.inr (Or.inl ⟨h1f, h2', rfl, ?_⟩))
        unfold processItem
        rw [if_neg h1, if_neg h2]
        simp only [hr]
      | some pv =>
        cases hraise : (songStep mo pv u
            { st with visited_urls := setAdd st.visited_urls u }).raised with
        | none =>
          refine Or.inr (Or.inr (Or.inr (Or.inl
            ⟨pv, h1f, h2', rfl, hraise, ?_⟩)))
          unfold processItem
          rw [if_neg h1, if_neg h2]
          simp only [hr, hraise]
        | some e =>
          refine Or.inr (Or.inr (Or.inr (Or.inr
            ⟨pv, e, h1f, h2', rfl, hraise, ?_⟩)))
          unfold processItem
          rw [if_neg h1, if_neg h2]
          simp only [hr, hraise]

theorem processItem_visited_of (cfg : CrawlConfig) (f : Fetcher)
    (mo : String → MetaOracle) (u : String) (d : Nat) (st : CrawlState)
    {v : String} (h : st.visited_urls.contains v = true) :
    (processItem cfg f mo u d st).state.visited_urls.contains v = true := by
  rcases processItem_spec cfg f mo u d st with
    ⟨_, he⟩ | ⟨_, _, he⟩ | ⟨_, _, _, he⟩ | ⟨pv, _, _, _, _, he⟩ |
    ⟨pv, e, _, _, _, _, he⟩ <;> rw [he]
  · exact h
  · exact h
  · exact setAdd_contains_of u h
  · rw [(foldl_addLink_fields u d pv.links _).1, (songStep_fixed mo pv u _).2]
    exact setAdd_contains_of u h
  · rw [(songStep_fixed mo pv u _).2]
    exact setAdd_contains_of u h

theorem processItem_visited_self (cfg : CrawlConfig) (f : Fetcher)
    (mo : String → MetaOracle) (u : String) (d : Nat) (st : CrawlState)
    (h1 : st.visited_urls.contains u = false)
    (h2 : d ≤ cfg.max_crawl_depth) :
    (processItem cfg f mo u d st).state.visited_urls.contains u = true ∧
    (processItem cfg f mo u d st).fetched = some u := by
  rcases processItem_spec cfg f mo u d st with
    ⟨hx, he⟩ | ⟨_, hx, he⟩ | ⟨_, _, _, he⟩ | ⟨pv, _, _, _, _, he⟩ |
    ⟨pv, e, _, _, _, _, he⟩ <;> rw [he]
  · rw [h1] at hx
    exact absurd hx (by simp)
  · exact absurd hx (by omega)
  · exact ⟨setAdd_contains_self _ _, rfl⟩
  · refine ⟨?_, rfl⟩
    rw [(foldl_addLink_fields u d pv.links _).1, (songStep_fixed mo pv u _).2]
    exact setAdd_contains_self _ _
  · refine ⟨?_, rfl⟩
    rw [(songStep_fixed mo pv u _).2]
    exact setAdd_contains_self _ _

theorem processItem_fetched_spec (cfg : CrawlConfig) (f : Fetcher)
    (mo : String → MetaOracle) (u : String) (d : Nat) (st : CrawlState)
    {w : String} (h : (processItem cfg f mo u d st).fetched = some w) :
    w = u ∧ st.visited_urls.contains u = false ∧
    d ≤ cfg.max_crawl_depth := by
  rcases processItem_spec cfg f mo u d st with
    ⟨_, he⟩ | ⟨_, _, he⟩ | ⟨h1, h2, _, he⟩ | ⟨pv, h1, h2, _, _, he⟩ |
    ⟨pv, e, h1, h2, _, _, he⟩ <;> rw [he] at h
  · cases h
  · cases h
  · exact ⟨(Option.some.injEq _ _).mp h.symm, h1, h2⟩
  · exact ⟨(Option.some.injEq _ _).mp h.symm, h1, h2⟩
  · exact ⟨(Option.some.injEq _ _).mp h.symm, h1, h2⟩

theorem runSteps_visited_not_fetched (cfg : CrawlConfig) (f : Fetcher)
    (mo : String → MetaOracle) :
    ∀ (n : Nat) (st : CrawlState) (v : String),
      st.visited_urls.contains v = true →
      v ∉ (runSteps cfg f mo n st).2 := by
  intro n
  induction n with
  | zero =>
    intro st v h
    simp [runSteps]
  | succ m ih =>
    intro st v h
    show v ∉ (runSteps cfg f mo (m + 1) st).2
    unfold runSteps engineStep
    cases hq : st.to_visit with
    | nil => simp
    | cons hd tl =>
      obtain ⟨u, d⟩ := hd
      dsimp only
      intro hmem
      rw [List.mem_append] at hmem
      rcases hmem with hm | hm
      · cases hfo : (processItem cfg f mo u d
            { st with to_visit := tl }).fetched with
        | none => rw [hfo] at hm; cases hm
        | some w =>
          rw [hfo] at hm
          simp only [Option.toList_some, List.mem_singleton] at hm
          subst hm
          have h3 := processItem_fetched_spec cfg f mo u d
            { st with to_visit := tl } hfo
          have hc : st.visited_urls.contains u = false := h3.2.1
          rw [h3.1] at h
          rw [h] at hc
          exact absurd hc (by simp)
      · exact ih (processItem cfg f mo u d { st with to_visit := tl }).state v
          (processItem_visited_of cfg f mo u d { st with to_visit := tl } h)
          hm

/-- C3: a WorkItem that passes the visited and depth filters has its URL in
the VisitedSet in the post-state — even when the fetch fails — is still
visited after a checkpoint save/load taken afterwards, and any run started
from a state whose visited set holds the URL never fetches it. -/
theorem c3_visited_before_fetch (cfg : CrawlConfig) (f : Fetcher)
    (mo : String → MetaOracle) (st : CrawlState) (u : String) (d : Nat)
    (rest : List (String × Nat)) (out : StepOutcome) (n : Nat)
    (hq : st.to_visit = (u, d) :: rest)
    (hv : st.visited_urls.contains u = false)
    (hd : d ≤ cfg.max_crawl_depth)
    (hstep : engineStep cfg f mo st = some out) :
    out.fetched = some u ∧
    out.state.visited_urls.contains u = true ∧
    u ∈ (load_crawl_state
        (save_crawl_state out.state.to_visit out.state.visited_urls
          out.state.song_page_urls out.state.song_metadata_list).state_file
        (save_crawl_state out.state.to_visit out.state.visited_urls
          out.state.song_page_urls
          out.state.song_metadata_list).song_pages_file
        (save_crawl_state out.state.to_visit out.state.visited_urls
          out.state.song_page_urls
          out.state.song_metadata_list).metadata_file).visited_set ∧
    (∀ st' : CrawlState, st'.visited_urls.contains u = true →
      u ∉ (runSteps cfg f mo n st').2) := by
  have hout : out = processItem cfg f mo u d { st with to_visit := rest } := by
    unfold engineStep at hstep
    rw [hq] at hstep
    exact ((Option.some.injEq _ _).mp hstep).symm
  subst hout
  have hvis := processItem_visited_self cfg f mo u d
    { st with to_visit := rest } hv hd
  refine ⟨hvis.2, hvis.1, ?_, ?_⟩
  · rw [load_save]
    show u ∈ List.dedup _
    rw [List.mem_dedup]
    exact contains_true_iff.mp hvis.1
  · intro st' h'
    exact runSteps_visited_not_fetched cfg f mo n st' u h'

/-- Witness for C3: page `b.html` of the concrete fixture passes the filters
and is fetched with its URL already marked visited. -/
theorem c3_visited_before_fetch_witness :
    cexState0.to_visit = [("https://pagalgana.com/b.html", 0)] ∧
    (processItem cexCfg cexFetcher cexMo "https://pagalgana.com/b.html" 0
        { cexState0 with to_visit := [] }).fetched =
      some "https://pagalgana.com/b.html" ∧
    (processItem cexCfg cexFetcher cexMo "https://pagalgana.com/b.html" 0
        { cexState0 with to_visit := [] }).state.visited_urls.contains
      "https://pagalgana.com/b.html" = true :=
  ⟨rfl,
   (c3_visited_before_fetch cexCfg cexFetcher cexMo cexState0
       "https://pagalgana.com/b.html" 0 []
       (processItem cexCfg cexFetcher cexMo "https://pagalgana.com/b.html" 0
         { cexState0 with to_visit := [] }) 1 rfl rfl (by decide) rfl).1,
   (c3_visited_before_fetch cexCfg cexFetcher cexMo cexState0
       "https://pagalgana.com/b.html" 0 []
       (processItem cexCfg cexFetcher cexMo "https://pagalgana.com/b.html" 0
         { cexState0 with to_visit := [] }) 1 rfl rfl (by decide) rfl).2.1⟩

/-- C4: every WorkItem enqueued while processing a page popped at depth `d`
carries depth exactly `d + 1`; an item popped beyond the depth bound is
discarded without a fetch and without touching the visited set; and a fetch
only happens for items within the bound. -/
theorem c4_depth_bounds (cfg : CrawlConfig) (f : Fetcher)
    (mo : String → MetaOracle) (st : CrawlState) (u : String) (d : Nat)
    (rest : List (String × Nat)) (out : StepOutcome)
    (hq : st.to_visit = (u, d) :: rest)
    (hstep : engineStep cfg f mo st = some out) :
    (∀ e ∈ out.state.to_visit, e ∈ rest ∨ e.2 = d + 1) ∧
    (cfg.max_crawl_depth < d →
      out.state.to_visit = rest ∧
      out.state.visited_urls = st.visited_urls ∧ out.fetched = none) ∧
    (∀ w, out.fetched = some w → d ≤ cfg.max_crawl_depth) := by
  have hout : out = processItem cfg f mo u d { st with to_visit := rest } := by
    unfold engineStep at hstep
    rw [hq] at hstep
    exact ((Option.some.injEq _ _).mp hstep).symm
  subst hout
  rcases processItem_spec cfg f mo u d { st with to_visit := rest } with
    ⟨h1, he⟩ | ⟨h1, h2, he⟩ | ⟨h1, h2, h3, he⟩ | ⟨pv, h1, h2, h3, h4, he⟩ |
    ⟨pv, ex, h1, h2, h3, h4, he⟩ <;> rw [he]
  · exact ⟨fun e he' => Or.inl he', fun _ => ⟨rfl, rfl, rfl⟩,
      fun w hw => by cases hw⟩
  · exact ⟨fun e he' => Or.inl he', fun _ => ⟨rfl, rfl, rfl⟩,
      fun w hw => by cases hw⟩
  · exact ⟨fun e he' => Or.inl he', fun hlt => absurd h2 (by omega),
      fun w _ => h2⟩
  · refine ⟨?_, fun hlt => absurd h2 (by omega), fun w _ => h2⟩
    intro e he'
    rcases foldl_addLink_to_visit_mem u d pv.links _ e he' with hb | hb
    · left
      rw [(songStep_fixed mo pv u _).1] at hb
      exact hb
    · exact Or.inr hb
  · refine ⟨?_, fun hlt => absurd h2 (by omega), fun w _ => h2⟩
    intro e he'
    left
    rw [(songStep_fixed mo pv u _).1] at he'
    exact he'

/-- Witness for C4: the first step of the concrete fixture run. -/
theorem c4_depth_bounds_witness :
    cexState0.to_visit = [("https://pagalgana.com/b.html", 0)] ∧
    ∀ e ∈ (processItem cexCfg cexFetcher cexMo
        "https://pagalgana.com/b.html" 0
        { cexState0 with to_visit := [] }).state.to_visit,
      e ∈ ([] : List (String × Nat)) ∨ e.2 = 0 + 1 :=
  ⟨rfl,
   (c4_depth_bounds cexCfg cexFetcher cexMo cexState0
       "https://pagalgana.com/b.html" 0 []
       (processItem cexCfg cexFetcher cexMo "https://pagalgana.com/b.html" 0
         { cexState0 with to_visit := [] }) rfl rfl).1⟩

/-! ## Metadata idempotence (C7) -/

theorem find?_map_replace (d : MetaRecord) (k k' : String) (v : Json)
    (hne : k' ≠ k) :
    (d.map (fun p => if p.1 = k' then (k', v) else p)).find?
        (fun p => p.1 == k)
      = d.find? (fun p => p.1 == k) := by
  induction d with
  | nil => rfl
  | cons p rest ih =>
    by_cases hp : p.1 = k'
    · have hk : (p.1 == k) = false := by
        rw [hp]
        exact beq_false_of_ne hne
      simp only [List.map_cons, List.find?_cons, hp, if_pos, hk]
      simp only [beq_false_of_ne hne]
      exact ih
    · simp only [List.map_cons, List.find?_cons, hp, if_neg, ite_false]
      cases hk : (p.1 == k)
      · exact ih
      · rfl

theorem dictGet?_dictSet_ne (d : MetaRecord) (k k' : String) (v : Json)
    (hne : k' ≠ k) : dictGet? (dictSet d k' v) k = dictGet? d k := by
  unfold dictSet dictGet?
  split
  · rw [find?_map_replace d k k' v hne]
  · rw [List.find?_append]
    have : List.find? (fun p => p.1 == k) [(k', v)] = none := by
      simp [beq_false_of_ne hne]
    rw [this]
    cases List.find? (fun p => p.1 == k) d <;> rfl

theorem dictGet?_dictUpdate_no_key (d : MetaRecord)
    (kvs : List (String × Json)) (k : String)
    (h : dictHasKey kvs k = false) :
    dictGet? (dictUpdate d kvs) k = dictGet? d k := by
  induction kvs generalizing d with
  | nil => rfl
  | cons p rest ih =>
    simp only [dictHasKey, Bool.or_eq_false_iff] at h
    have hne : p.1 ≠ k := by
      intro he
      rw [he] at h
      simp at h
    show dictGet? (dictUpdate (dictSet d p.1 p.2) rest) k = dictGet? d k
    rw [ih (dictSet d p.1 p.2) h.2, dictGet?_dictSet_ne d k p.1 p.2 hne]

theorem metaAudioStage_get_url (pg : MetaPage) (m : MetaRecord) :
    dictGet? (metaAudioStage pg m) "URL" = dictGet? m "URL" := by
  unfold metaAudioStage
  split
  · exact dictGet?_dictSet_ne m "URL" _ _ (by decide)
  · split
    · split
      · exact dictGet?_dictSet_ne m "URL" _ _ (by decide)
      · exact dictGet?_dictSet_ne m "URL" _ _ (by decide)
    · exact dictGet?_dictSet_ne m "URL" _ _ (by decide)

theorem metaThumbStage_get_url (pg : MetaPage) (m : MetaRecord) :
    dictGet? (metaThumbStage pg m) "URL" = dictGet? m "URL" := by
  unfold metaThumbStage
  split
  · exact dictGet?_dictSet_ne m "URL" _ _ (by decide)
  · rw [metaAudioStage_get_url]
    split
    · split
      · rfl
      · exact dictGet?_dictSet_ne m "URL" _ _ (by decide)
    · rfl

theorem metaTbodyStage_get_url (pg : MetaPage) (m : MetaRecord)
    (hkvs : ∀ kvs, pg.tbodyJson = PyRes.ok kvs → dictHasKey kvs "URL" = false) :
    dictGet? (metaTbodyStage pg m) "URL" = dictGet? m "URL" := by
  unfold metaTbodyStage
  split
  · exact dictGet?_dictSet_ne m "URL" _ _ (by decide)
  · split
    · split
      · rw [metaThumbStage_get_url]
        exact dictGet?_dictSet_ne m "URL" _ _ (by decide)
      · split
        · exact dictGet?_dictSet_ne m "URL" _ _ (by decide)
        · next kvs hok =>
          rw [metaThumbStage_get_url]
          exact dictGet?_dictUpdate_no_key m kvs "URL" (hkvs kvs hok)
    · rw [metaThumbStage_get_url]
      exact dictGet?_dictSet_ne m "URL" _ _ (by decide)

theorem extract_url_field (o : MetaOracle) (url : String)
    (h : ∀ pg kvs, o.fetched = FetchOutcome.page pg →
      pg.tbodyJson = PyRes.ok kvs → dictHasKey kvs "URL" = false) :
    ∀ m, extract_song_metadata o url = PyRes.ok m →
      dictGet? m "URL" = some (Json.str url) := by
  intro m hm
  unfold extract_song_metadata at hm
  cases ho : o.fetched with
  | parseError e => rw [ho] at hm; cases hm
  | failed =>
    rw [ho] at hm
    cases hm
    rfl
  | page pg =>
    rw [ho] at hm
    cases hm
    rw [metaTbodyStage_get_url pg _ (fun kvs hok => h pg kvs ho hok)]
    rfl

theorem metaUrls_append (l : List MetaRecord) (r : MetaRecord) :
    metaUrls (l ++ [r]) = metaUrls l ++ metaUrls [r] := by
  unfold metaUrls
  rw [List.filterMap_append]

theorem metaUrls_single_of_url (r : MetaRecord) (u : String)
    (h : dictGet? r "URL" = some (Json.str u)) : metaUrls [r] = [u] := by
  unfold metaUrls
  simp [h]

/-- C7: with extraction results carrying their own URL (the scraped details
table never supplying a conflicting `URL` key), a song page whose URL already
has a metadata record — loaded at start or appended during the run — is not
re-extracted and appends no second record; the stored-record URLs stay
covered by the processed set, and at-most-one-record-per-URL is preserved by
every step. -/
theorem c7_metadata_idempotence (cfg : CrawlConfig) (f : Fetcher)
    (mo : String → MetaOracle) (st : CrawlState) (u : String) (d : Nat)
    (rest : List (String × Nat)) (out : StepOutcome)
    (hmo : ∀ w pg kvs, (mo w).fetched = FetchOutcome.page pg →
      pg.tbodyJson = PyRes.ok kvs → dictHasKey kvs "URL" = false)
    (hq : st.to_visit = (u, d) :: rest)
    (hstep : engineStep cfg f mo st = some out)
    (hInv : ∀ w, w ∈ metaUrls st.song_metadata_list →
      st.processed_metadata_urls.contains w = true) :
    (u ∈ metaUrls st.song_metadata_list →
      out.extracted = none ∧
      out.state.song_metadata_list = st.song_metadata_list) ∧
    (∀ w, w ∈ metaUrls out.state.song_metadata_list →
      out.state.processed_metadata_urls.contains w = true) ∧
    ((metaUrls st.song_metadata_list).Nodup →
      (metaUrls out.state.song_metadata_list).Nodup) := by
  have hout : out = processItem cfg f mo u d { st with to_visit := rest } := by
    unfold engineStep at hstep
    rw [hq] at hstep
    exact ((Option.some.injEq _ _).mp hstep).symm
  subst hout
  rcases processItem_spec cfg f mo u d { st with to_visit := rest } with
    ⟨h1, he⟩ | ⟨h1, h2, he⟩ | ⟨h1, h2, h3, he⟩ | ⟨pv, h1, h2, h3, h4, he⟩ |
    ⟨pv, ex, h1, h2, h3, h4, he⟩ <;> rw [he]
  · exact ⟨fun _ => ⟨rfl, rfl⟩, hInv, fun hn => hn⟩
  · exact ⟨fun _ => ⟨rfl, rfl⟩, hInv, fun hn => hn⟩
  · exact ⟨fun _ => ⟨rfl, rfl⟩, hInv, fun hn => hn⟩
  · -- rendered, extractor did not raise: links are folded over the
    -- song-branch state
    dsimp only
    rcases songStep_spec mo pv u (CrawlState.mk rest
        (setAdd st.visited_urls u) st.song_page_urls
        st.song_metadata_list st.processed_metadata_urls) with
      ⟨hm1, hm2, hm3⟩ | ⟨m, hpf, hex, hm1, hm2, hm3⟩ | ⟨hpf, hm1, hm2, hm3⟩
    · refine ⟨fun _ => ⟨?_, ?_⟩, ?_, ?_⟩
      · exact hm3
      · rw [(foldl_addLink_fields u d pv.links _).2.2.1, hm1]
      · intro w hw
        rw [(foldl_addLink_fields u d pv.links _).2.2.1, hm1] at hw
        rw [(foldl_addLink_fields u d pv.links _).2.2.2, hm2]
        exact hInv w hw
      · intro hn
        rw [(foldl_addLink_fields u d pv.links _).2.2.1, hm1]
        exact hn
    · have hurl : dictGet? m "URL" = some (Json.str u) :=
        extract_url_field (mo u) u (hmo u) m hex
      have hnotin : u ∉ metaUrls st.song_metadata_list := by
        intro hu
        have hc := hInv u hu
        have hf : st.processed_metadata_urls.contains u = false := hpf
        rw [hc] at hf
        cases hf
      refine ⟨fun hu => absurd hu hnotin, ?_, ?_⟩
      · intro w hw
        rw [(foldl_addLink_fields u d pv.links _).2.2.1, hm1,
          metaUrls_append, metaUrls_single_of_url m u hurl] at hw
        rw [(foldl_addLink_fields u d pv.links _).2.2.2, hm2,
          contains_true_iff]
        rw [List.mem_append] at hw
        rcases hw with hw | hw
        · exact List.mem_append_left _ (contains_true_iff.mp (hInv w hw))
        · simp only [List.mem_singleton] at hw
          subst hw
          exact List.mem_append_right _ (List.mem_singleton_self _)
      · intro hn
        rw [(foldl_addLink_fields u d pv.links _).2.2.1, hm1,
          metaUrls_append, metaUrls_single_of_url m u hurl,
          List.nodup_append]
        refine ⟨hn, List.nodup_singleton _, ?_⟩
        intro a ha hb
        simp only [List.mem_singleton] at hb
        subst hb
        exact hnotin ha
    · have hnotin : u ∉ metaUrls st.song_metadata_list := by
        intro hu
        have hc := hInv u hu
        have hf : st.processed_metadata_urls.contains u = false := hpf
        rw [hc] at hf
        cases hf
      refine ⟨fun hu => absurd hu hnotin, ?_, ?_⟩
      · intro w hw
        rw [(foldl_addLink_fields u d pv.links _).2.2.1, hm1] at hw
        rw [(foldl_addLink_fields u d pv.links _).2.2.2, hm2]
        exact hInv w hw
      · intro hn
        rw [(foldl_addLink_fields u d pv.links _).2.2.1, hm1]
        exact hn
  · -- rendered, extractor raised: the per-item handler catches it and link
    -- extraction is skipped
    dsimp only
    rcases songStep_spec mo pv u (CrawlState.mk rest
        (setAdd st.visited_urls u) st.song_page_urls
        st.song_metadata_list st.processed_metadata_urls) with
      ⟨hm1, hm2, hm3⟩ | ⟨m, hpf, hex, hm1, hm2, hm3⟩ | ⟨hpf, hm1, hm2, hm3⟩
    · refine ⟨fun _ => ⟨hm3, hm1⟩, ?_, ?_⟩
      · intro w hw
        rw [hm1] at hw
        rw [hm2]
        exact hInv w hw
      · intro hn
        rw [hm1]
        exact hn
    · have hurl : dictGet? m "URL" = some (Json.str u) :=
        extract_url_field (mo u) u (hmo u) m hex
      have hnotin : u ∉ metaUrls st.song_metadata_list := by
        intro hu
        have hc := hInv u hu
        have hf : st.processed_metadata_urls.contains u = false := hpf
        rw [hc] at hf
        cases hf
      refine ⟨fun hu => absurd hu hnotin, ?_, ?_⟩
      · intro w hw
        rw [hm1, metaUrls_append, metaUrls_single_of_url m u hurl] at hw
        rw [hm2, contains_true_iff]
        rw [List.mem_append] at hw
        rcases hw with hw | hw
        · exact List.mem_append_left _ (contains_true_iff.mp (hInv w hw))
        · simp only [List.mem_singleton] at hw
          subst hw
          exact List.mem_append_right _ (List.mem_singleton_self _)
      · intro hn
        rw [hm1, metaUrls_append, metaUrls_single_of_url m u hurl,
          List.nodup_append]
        refine ⟨hn, List.nodup_singleton _, ?_⟩
        intro a ha hb
        simp only [List.mem_singleton] at hb
        subst hb
        exact hnotin ha
    · have hnotin : u ∉ metaUrls st.song_metadata_list := by
        intro hu
        have hc := hInv u hu
        have hf : st.processed_metadata_urls.contains u = false := hpf
        rw [hc] at hf
        cases hf
      refine ⟨fun hu => absurd hu hnotin, ?_, ?_⟩
      · intro w hw
        rw [hm1] at hw
        rw [hm2]
        exact hInv w hw
      · intro hn
        rw [hm1]
        exact hn

/-- Witness for C7: a song page whose URL already has a loaded metadata
record is processed without invoking the extractor. -/
theorem c7_metadata_idempotence_witness :
    "https://pagalgana.com/u.html" ∈
      metaUrls [[("URL", Json.str "https://pagalgana.com/u.html")]] ∧
    (processItem cexCfg (Fetcher.mk fun _ => some (PageView.mk true []))
        cexMo "https://pagalgana.com/u.html" 0
        (CrawlState.mk [] [] []
          [[("URL", Json.str "https://pagalgana.com/u.html")]]
          ["https://pagalgana.com/u.html"])).extracted = none := by
  have hmeta : metaUrls [[("URL", Json.str "https://pagalgana.com/u.html")]]
      = ["https://pagalgana.com/u.html"] := rfl
  have hu : "https://pagalgana.com/u.html" ∈
      metaUrls [[("URL", Json.str "https://pagalgana.com/u.html")]] := by
    rw [hmeta]
    exact List.mem_singleton_self _
  refine ⟨hu, ?_⟩
  exact ((c7_metadata_idempotence cexCfg
    (Fetcher.mk fun _ => some (PageView.mk true [])) cexMo
    (CrawlState.mk [("https://pagalgana.com/u.html", 0)] [] []
      [[("URL", Json.str "https://pagalgana.com/u.html")]]
      ["https://pagalgana.com/u.html"])
    "https://pagalgana.com/u.html" 0 []
    (processItem cexCfg (Fetcher.mk fun _ => some (PageView.mk true []))
      cexMo "https://pagalgana.com/u.html" 0
      (CrawlState.mk [] [] []
        [[("URL", Json.str "https://pagalgana.com/u.html")]]
        ["https://pagalgana.com/u.html"]))
    (fun _ _ _ h1 _ => FetchOutcome.noConfusion h1) rfl rfl
    (fun w hw => contains_true_iff.mpr (by rw [hmeta] at hw; exact hw))).1
    hu).1
